import Mathlib

/-!
Verification development for the morning-byte repository.

The definitions below are a shallow embedding of the Python source:
  * `Article`, `Section`, `Digest`, configuration records — `src/morning_byte/models.py`,
    `src/morning_byte/config.py`;
  * `Article.domain` — `models.py` (`urlparse(...).netloc.replace("www.", "")`);
  * `fetch_all_sources` — `src/morning_byte/main.py`;
  * the Dev.to, Reddit and RSS adapters — `src/morning_byte/sources/*.py`;
  * `create_digest_from_articles` — `src/morning_byte/epub/generator.py`;
  * `enrich_articles_with_content` — `src/morning_byte/content.py`.

Conventions of the embedding:
  * Python `datetime` values are modelled as `Nat` (datetimes are order-isomorphic
    to an initial segment of time; `datetime.min` is `0`, `datetime.now()` is an
    explicit `now : Nat` argument).
  * Python `int` is `Int`.
  * Network / IO results of a single request are passed in as function arguments
    (`Except String (List Article)` models "returned a list" vs "raised").
  * Python `dict` is an association list in insertion order (`alookup` is `d.get`).
  * `dateutil.parser.parse` and BeautifulSoup's `get_text` are uninterpreted
    function parameters (`parseDate`, `cleanHtml`).
-/

namespace MorningByte

/-- `dataclass Article` from `models.py`.  `published_at : datetime | None = None`
before `__post_init__` runs; `Article.post_init` below models `__post_init__`. -/
structure Article where
  title : String
  url : String
  source : String
  summary : String := ""
  author : String := ""
  score : Int := 0
  comments_count : Int := 0
  comments_url : String := ""
  published_at : Option Nat := none
  tags : List String := []
  content : String := ""
deriving Repr, DecidableEq

/-- `Article.__post_init__`: `if self.published_at is None: self.published_at = datetime.now()`.
Every Python construction `Article(...)` runs this, so adapters apply it on construction. -/
def Article.post_init (now : Nat) (a : Article) : Article :=
  { a with published_at := some (a.published_at.getD now) }

/-- Python `str.replace("www.", "")` specialised to the pattern `"www."`:
scan left to right, removing each non-overlapping occurrence of `w`,`w`,`w`,`.`.
Used by `Article.domain` (`models.py`) on the parsed netloc. -/
def removeWWW : List Char → List Char
  | [] => []
  | 'w' :: 'w' :: 'w' :: '.' :: rest => removeWWW rest
  | c :: cs => c :: removeWWW cs

/-- `"www."` occurs as a contiguous substring. -/
def containsWWW : List Char → Bool
  | [] => false
  | 'w' :: 'w' :: 'w' :: '.' :: _ => true
  | _ :: cs => containsWWW cs

/-- Helper for `netlocOf`: drop through the first `"://"`, returning what follows
(`urlparse` takes the authority component after the scheme separator). -/
def splitAtAuthority : List Char → Option (List Char)
  | [] => none
  | ':' :: '/' :: '/' :: rest => some rest
  | _ :: rest => splitAtAuthority rest

/-- A character that terminates the netloc component in `urlparse`. -/
def netlocEnd (c : Char) : Bool := c = '/' || c = '?' || c = '#'

/-- `urlparse(url).netloc` for absolute URLs carrying an authority
(`scheme://host...`): the text between `"://"` and the next `/`, `?` or `#`.
URLs without `"://"` have an empty netloc. -/
def netlocOf (url : String) : String :=
  match splitAtAuthority url.data with
  | some rest => String.mk (rest.takeWhile (fun c => !netlocEnd c))
  | none => ""

/-- `netloc.replace("www.", "")` as a `String` transformation. -/
def stripWWWAll (s : String) : String := String.mk (removeWWW s.data)

/-- `Article.domain` (`models.py`): `urlparse(self.url).netloc.replace("www.", "")`. -/
def Article.domain (a : Article) : String := stripWWWAll (netlocOf a.url)

lemma removeWWW_nil : removeWWW [] = [] := rfl

lemma removeWWW_www (t : List Char) :
    removeWWW ('w' :: 'w' :: 'w' :: '.' :: t) = removeWWW t := rfl

lemma containsWWW_www (t : List Char) :
    containsWWW ('w' :: 'w' :: 'w' :: '.' :: t) = true := rfl

lemma removeWWW_cons_of_ne (c : Char) (cs : List Char)
    (hne : ∀ t, ¬(c = 'w' ∧ cs = 'w' :: 'w' :: '.' :: t)) :
    removeWWW (c :: cs) = c :: removeWWW cs := by
  rw [removeWWW.eq_def]
  split
  · simp_all
  · rename_i t heq
    rw [List.cons.injEq] at heq
    exact absurd heq (hne t)
  · rename_i c0 cs0 hcond heq
    rw [List.cons.injEq] at heq
    rw [heq.1, heq.2]

lemma containsWWW_cons_of_ne (c : Char) (cs : List Char)
    (hne : ∀ t, ¬(c = 'w' ∧ cs = 'w' :: 'w' :: '.' :: t)) :
    containsWWW (c :: cs) = containsWWW cs := by
  rw [containsWWW.eq_def]
  split
  · simp_all
  · rename_i t heq
    rw [List.cons.injEq] at heq
    exact absurd heq (hne t)
  · rename_i c0 cs0 hcond heq
    rw [List.cons.injEq] at heq
    rw [heq.2]

lemma removeWWW_of_not_contains (s : List Char) (h : containsWWW s = false) :
    removeWWW s = s := by
  induction s with
  | nil => rfl
  | cons c cs ih =>
    have hne : ∀ t, ¬(c = 'w' ∧ cs = 'w' :: 'w' :: '.' :: t) := by
      rintro t ⟨hc, hcs⟩
      rw [hc, hcs, containsWWW_www] at h
      simp at h
    have hcs : containsWWW cs = false := by
      rw [containsWWW_cons_of_ne c cs hne] at h
      exact h
    rw [removeWWW_cons_of_ne c cs hne, ih hcs]

/-- Association-list lookup in insertion order; models Python `dict` indexing /
`dict.get` for the dicts of this program (which are built in insertion order with
unique keys). -/
def alookup {β : Type} (k : String) : List (String × β) → Option β
  | [] => none
  | p :: rest => if p.1 = k then some p.2 else alookup k rest

section Sorting

variable {α : Type} {β : Type} [LinearOrder β]

/-- One insertion step of a stable descending-by-key sort. `x` is placed before
the first element whose key is `≤ key x` (so it goes after strictly-greater keys
and before equal keys that were originally later). -/
def insertDescBy (key : α → β) (x : α) : List α → List α
  | [] => [x]
  | y :: ys => if key x < key y then y :: insertDescBy key x ys else x :: y :: ys

/-- Python `sorted(l, key=key, reverse=True)` / `l.sort(key=key, reverse=True)`:
a stable sort by descending key (insertion sort; Python's sort is specified as
stable, and a stable descending sort is unique as a function). -/
def sortDescBy (key : α → β) : List α → List α
  | [] => []
  | x :: xs => insertDescBy key x (sortDescBy key xs)

lemma insertDescBy_perm (key : α → β) (x : α) (l : List α) :
    List.Perm (insertDescBy key x l) (x :: l) := by
  induction l with
  | nil => exact List.Perm.refl _
  | cons y ys ih =>
    rw [insertDescBy]
    split
    · exact (ih.cons y).trans (List.Perm.swap x y ys)
    · exact List.Perm.refl _

lemma sortDescBy_perm (key : α → β) (l : List α) : List.Perm (sortDescBy key l) l := by
  induction l with
  | nil => exact List.Perm.refl _
  | cons x xs ih =>
    exact (insertDescBy_perm key x _).trans (ih.cons x)

lemma mem_sortDescBy (key : α → β) (l : List α) (a : α) :
    a ∈ sortDescBy key l ↔ a ∈ l :=
  (sortDescBy_perm key l).mem_iff

lemma length_sortDescBy (key : α → β) (l : List α) :
    (sortDescBy key l).length = l.length :=
  (sortDescBy_perm key l).length_eq

lemma pairwise_insertDescBy (key : α → β) (x : α) (l : List α)
    (h : l.Pairwise (fun a b => key b ≤ key a)) :
    (insertDescBy key x l).Pairwise (fun a b => key b ≤ key a) := by
  induction l with
  | nil => simp [insertDescBy]
  | cons y ys ih =>
    rw [List.pairwise_cons] at h
    obtain ⟨hy, hys⟩ := h
    rw [insertDescBy]
    split
    · rename_i hlt
      rw [List.pairwise_cons]
      refine ⟨?_, ih hys⟩
      intro z hz
      rcases List.mem_cons.mp ((insertDescBy_perm key x ys).mem_iff.mp hz) with rfl | hz'
      · exact le_of_lt hlt
      · exact hy z hz'
    · rename_i hge
      push_neg at hge
      rw [List.pairwise_cons]
      refine ⟨?_, List.pairwise_cons.mpr ⟨hy, hys⟩⟩
      intro z hz
      rcases List.mem_cons.mp hz with rfl | hz'
      · exact hge
      · exact (hy z hz').trans hge

lemma pairwise_sortDescBy (key : α → β) (l : List α) :
    (sortDescBy key l).Pairwise (fun a b => key b ≤ key a) := by
  induction l with
  | nil => simp [sortDescBy]
  | cons x xs ih => exact pairwise_insertDescBy key x _ ih

lemma filter_insertDescBy_of_ne (key : α → β) (x : α) (l : List α) (k : β)
    (hk : ¬ key x = k) :
    (insertDescBy key x l).filter (fun a => key a = k) =
      l.filter (fun a => key a = k) := by
  induction l with
  | nil => simp [insertDescBy, hk]
  | cons y ys ih =>
    rw [insertDescBy]
    split
    · simp only [List.filter_cons]
      rw [ih]
    · simp [List.filter_cons, hk]

lemma filter_insertDescBy_of_eq (key : α → β) (x : α) (l : List α)
    (hs : l.Pairwise (fun a b => key b ≤ key a)) :
    (insertDescBy key x l).filter (fun a => key a = key x) =
      x :: l.filter (fun a => key a = key x) := by
  induction l with
  | nil => simp [insertDescBy]
  | cons y ys ih =>
    rw [List.pairwise_cons] at hs
    rw [insertDescBy]
    split
    · rename_i hlt
      have hy : ¬ key y = key x := fun h => absurd hlt (by rw [h]; exact lt_irrefl _)
      simp only [List.filter_cons]
      simp only [hy, decide_eq_true_eq, if_neg, decide_False]
      rw [ih hs.2]
      simp
    · simp [List.filter_cons]

lemma sortDescBy_filter_key (key : α → β) (l : List α) (k : β) :
    (sortDescBy key l).filter (fun a => key a = k) =
      l.filter (fun a => key a = k) := by
  induction l with
  | nil => rfl
  | cons x xs ih =>
    rw [sortDescBy]
    by_cases hx : key x = k
    · have h1 : (insertDescBy key x (sortDescBy key xs)).filter (fun a => key a = k) =
          x :: (sortDescBy key xs).filter (fun a => key a = k) := by
        rw [← hx]
        exact filter_insertDescBy_of_eq key x _ (pairwise_sortDescBy key xs)
      rw [h1, ih, List.filter_cons_of_pos]
      simp [hx]
    · rw [filter_insertDescBy_of_ne key x _ k hx, ih, List.filter_cons_of_neg]
      simp [hx]

end Sorting

/-- C2, counterexample.  `Article.domain` uses Python's `str.replace`, which removes
every `"www."` occurrence, not only a leading one: for the URL
`https://foo.www.bar.com/x` the netloc is `foo.www.bar.com` and the derived domain
is `foo.bar.com`, so a `"www."` occurrence that is not a leading prefix of the host
IS removed.  The transformation is also not idempotent: on the netloc `wwwww.w.`
one application yields `www.` and a second application yields the empty string. -/
theorem domain_counterexample :
    Article.domain { title := "t", url := "https://foo.www.bar.com/x", source := "s" } =
      "foo.bar.com"
    ∧ netlocOf "https://foo.www.bar.com/x" = "foo.www.bar.com"
    ∧ netlocOf "https://wwwww.w./x" = "wwwww.w."
    ∧ stripWWWAll (netlocOf "https://wwwww.w./x") = "www."
    ∧ stripWWWAll (stripWWWAll (netlocOf "https://wwwww.w./x")) ≠
        stripWWWAll (netlocOf "https://wwwww.w./x") := by
  refine ⟨by decide, by decide, by decide, by decide, by decide⟩

/-- C2 (amended): `Article.domain` returns the URL's host with every `"www."`
occurrence removed (scanning left to right, non-overlapping), not only a leading
one; `domain("https://www.example.com/x") = "example.com"` holds, a leading
`"www."` is always stripped, and a host containing no `"www."` is unchanged. -/
theorem domain_strips_all_www (t s : List Char) (h : containsWWW s = false) :
    Article.domain { title := "t", url := "https://www.example.com/x", source := "s" } =
      "example.com"
    ∧ removeWWW ('w' :: 'w' :: 'w' :: '.' :: t) = removeWWW t
    ∧ removeWWW s = s := by
  exact ⟨by decide, removeWWW_www t, removeWWW_of_not_contains s h⟩

/-- Witness for `domain_strips_all_www` at `t = "x".data`, `s = "abc.de".data`. -/
theorem domain_strips_all_www_witness :
    containsWWW "abc.de".data = false
    ∧ (Article.domain { title := "t", url := "https://www.example.com/x", source := "s" } =
        "example.com"
      ∧ removeWWW ('w' :: 'w' :: 'w' :: '.' :: "x".data) = removeWWW "x".data
      ∧ removeWWW "abc.de".data = "abc.de".data) :=
  ⟨by decide, domain_strips_all_www "x".data "abc.de".data (by decide)⟩

/-- One RSS feed entry of `config.sources["rss"].feeds`: a dict with optional
`url` and `name` keys (`feed_config.get("url", "")`, `feed_config.get("name", url)`). -/
structure FeedConfig where
  url? : Option String := none
  name? : Option String := none
deriving Repr, DecidableEq

/-- `dataclass SourceConfig` from `config.py`. -/
structure SourceConfig where
  enabled : Bool := true
  max_items : Nat := 10
  subreddits : List String := []
  feeds : List FeedConfig := []
  tags : List String := []
deriving Repr, DecidableEq

/-- Key set of the `SOURCES` registry in `sources/__init__.py`. -/
def SOURCES_names : List String := ["hackernews", "reddit", "lobsters", "devto", "rss"]

/-- The `articles_by_source` dict of `fetch_all_sources`: display label ↦ articles,
in insertion order. -/
abbrev Groups := List (String × List Article)

/-- The per-article grouping step inside `fetch_all_sources`:
`if source_key not in articles_by_source: articles_by_source[source_key] = []`
followed by `articles_by_source[source_key].append(article)`. -/
def groupInsert (m : Groups) (a : Article) : Groups :=
  if m.any (fun p => p.1 = a.source) then
    m.map (fun p => if p.1 = a.source then (p.1, p.2 ++ [a]) else p)
  else m ++ [(a.source, [a])]

/-- The `for article in articles` grouping loop of `fetch_all_sources`. -/
def groupArticles : Groups → List Article → Groups
  | m, [] => m
  | m, a :: rest => groupArticles (groupInsert m a) rest

/-- One iteration of the `for source_name, source_config in config.sources.items()`
loop of `fetch_all_sources`: skip when `not source_config.enabled` or the name has
no registered adapter class; otherwise group the fetched articles on success, or
print one warning line on an escaping exception.  The adapter's own `fetch`
(network IO) is the argument `fetch`; `registered` is `SOURCES.get(name) is not None`. -/
def fetchStep (fetch : String → SourceConfig → Except String (List Article))
    (registered : String → Bool) (acc : Groups × List String)
    (p : String × SourceConfig) : Groups × List String :=
  if p.2.enabled = false then acc
  else if registered p.1 = false then acc
  else
    match fetch p.1 p.2 with
    | .ok articles => (groupArticles acc.1 articles, acc.2)
    | .error e => (acc.1, acc.2 ++ ["Warning: Failed to fetch from " ++ p.1 ++ ": " ++ e])

/-- `fetch_all_sources` (`main.py`), returning the grouped articles together with
the list of warning lines printed to the console. -/
def fetch_all_sources (fetch : String → SourceConfig → Except String (List Article))
    (registered : String → Bool)
    (sources : List (String × SourceConfig)) : Groups × List String :=
  sources.foldl (fetchStep fetch registered) ([], [])

/-- Articles one configured source contributes to the run: none when disabled,
unregistered, or raising; its fetched list otherwise. -/
def sourceArticles (fetch : String → SourceConfig → Except String (List Article))
    (registered : String → Bool) (p : String × SourceConfig) : List Article :=
  if p.2.enabled = false then []
  else if registered p.1 = false then []
  else
    match fetch p.1 p.2 with
    | .ok articles => articles
    | .error _ => []

/-- The flat union of all returned articles, in configuration order. -/
def flatArticles (fetch : String → SourceConfig → Except String (List Article))
    (registered : String → Bool) : List (String × SourceConfig) → List Article
  | [] => []
  | p :: rest => sourceArticles fetch registered p ++ flatArticles fetch registered rest

/-- Warning lines one configured source contributes. -/
def warnOf (fetch : String → SourceConfig → Except String (List Article))
    (registered : String → Bool) (p : String × SourceConfig) : List String :=
  if p.2.enabled = false then []
  else if registered p.1 = false then []
  else
    match fetch p.1 p.2 with
    | .ok _ => []
    | .error e => ["Warning: Failed to fetch from " ++ p.1 ++ ": " ++ e]

/-- All warning lines of a run, in configuration order. -/
def warningsOf (fetch : String → SourceConfig → Except String (List Article))
    (registered : String → Bool) : List (String × SourceConfig) → List String
  | [] => []
  | p :: rest => warnOf fetch registered p ++ warningsOf fetch registered rest

/-- Keep the first appearance of each string not already in `seen`, dropping
later duplicates. -/
def firstAppearances (seen : List String) : List String → List String
  | [] => []
  | s :: rest =>
    if s ∈ seen then firstAppearances seen rest
    else s :: firstAppearances (s :: seen) rest

lemma firstAppearances_congr (seen1 seen2 : List String)
    (h : ∀ x, x ∈ seen1 ↔ x ∈ seen2) :
    ∀ l, firstAppearances seen1 l = firstAppearances seen2 l := by
  intro l
  induction l generalizing seen1 seen2 with
  | nil => rfl
  | cons s rest ih =>
    rw [firstAppearances, firstAppearances]
    by_cases hs : s ∈ seen1
    · rw [if_pos hs, if_pos ((h s).mp hs), ih seen1 seen2 h]
    · rw [if_neg hs, if_neg (fun hc => hs ((h s).mpr hc))]
      rw [ih (s :: seen1) (s :: seen2) (fun x => by simp [h x])]

lemma alookup_eq_none {γ : Type} (k : String) (m : List (String × γ)) :
    alookup k m = none ↔ k ∉ m.map Prod.fst := by
  induction m with
  | nil => simp [alookup]
  | cons p rest ih =>
    rw [alookup]
    by_cases hp : p.1 = k
    · simp [hp]
    · simp [hp, ih, Ne.symm hp]

lemma alookup_append_of_none {γ : Type} (k : String) (m1 m2 : List (String × γ))
    (h : alookup k m1 = none) : alookup k (m1 ++ m2) = alookup k m2 := by
  induction m1 with
  | nil => rfl
  | cons p rest ih =>
    rw [alookup] at h
    rw [List.cons_append, alookup]
    by_cases hp : p.1 = k
    · rw [if_pos hp] at h; exact absurd h (by simp)
    · rw [if_neg hp] at h ⊢; exact ih h

lemma alookup_append_of_some {γ : Type} (k : String) (m1 m2 : List (String × γ))
    (v : γ) (h : alookup k m1 = some v) : alookup k (m1 ++ m2) = some v := by
  induction m1 with
  | nil => simp [alookup] at h
  | cons p rest ih =>
    rw [alookup] at h
    rw [List.cons_append, alookup]
    by_cases hp : p.1 = k
    · rw [if_pos hp] at h ⊢; exact h
    · rw [if_neg hp] at h ⊢; exact ih h

lemma any_source_iff (m : Groups) (a : Article) :
    m.any (fun p => p.1 = a.source) = true ↔ a.source ∈ m.map Prod.fst := by
  simp [List.any_eq_true, List.mem_map]

lemma alookup_map_update (m : Groups) (a : Article) (h : a.source ∈ m.map Prod.fst) :
    alookup a.source (m.map (fun p => if p.1 = a.source then (p.1, p.2 ++ [a]) else p)) =
      some ((alookup a.source m).getD [] ++ [a]) := by
  induction m with
  | nil => simp at h
  | cons p rest ih =>
    by_cases hp : p.1 = a.source
    · simp [alookup, hp]
    · have h' : a.source ∈ rest.map Prod.fst := by
        rw [List.map_cons, List.mem_cons] at h
        rcases h with he | he
        · exact absurd he.symm hp
        · exact he
      simp [alookup, hp, ih h']

lemma alookup_map_update_other (m : Groups) (a : Article) (k : String)
    (hk : ¬ a.source = k) :
    alookup k (m.map (fun p => if p.1 = a.source then (p.1, p.2 ++ [a]) else p)) =
      alookup k m := by
  induction m with
  | nil => rfl
  | cons p rest ih =>
    have hk' : ¬ k = a.source := fun hh => hk hh.symm
    by_cases hp : p.1 = a.source
    · have hpk : ¬ p.1 = k := by rw [hp]; exact hk
      simp [alookup, hp, hpk, hk, ih]
    · by_cases hpk : p.1 = k
      · simp [alookup, hp, hpk, hk']
      · simp [alookup, hp, hpk, ih]

lemma keys_groupInsert (m : Groups) (a : Article) :
    (groupInsert m a).map Prod.fst =
      if a.source ∈ m.map Prod.fst then m.map Prod.fst
      else m.map Prod.fst ++ [a.source] := by
  by_cases h : a.source ∈ m.map Prod.fst
  · rw [if_pos h, groupInsert, if_pos ((any_source_iff m a).mpr h), List.map_map]
    refine List.map_congr_left ?_
    intro p _
    by_cases hp : p.1 = a.source <;> simp [hp]
  · have hany : ¬ (m.any (fun p => p.1 = a.source) = true) :=
      fun hc => h ((any_source_iff m a).mp hc)
    rw [if_neg h, groupInsert, if_neg hany]
    simp

lemma alookup_groupInsert_self (m : Groups) (a : Article) :
    alookup a.source (groupInsert m a) =
      some ((alookup a.source m).getD [] ++ [a]) := by
  by_cases h : a.source ∈ m.map Prod.fst
  · rw [groupInsert, if_pos ((any_source_iff m a).mpr h)]
    exact alookup_map_update m a h
  · have hany : ¬ (m.any (fun p => p.1 = a.source) = true) :=
      fun hc => h ((any_source_iff m a).mp hc)
    have hnone : alookup a.source m = none := (alookup_eq_none _ m).mpr h
    rw [groupInsert, if_neg hany, alookup_append_of_none _ _ _ hnone, hnone]
    simp [alookup]

lemma alookup_groupInsert_other (m : Groups) (a : Article) (k : String)
    (hk : ¬ a.source = k) :
    alookup k (groupInsert m a) = alookup k m := by
  rw [groupInsert]
  split
  · exact alookup_map_update_other m a k hk
  · cases hm : alookup k m with
    | some v => exact alookup_append_of_some _ _ _ _ hm
    | none =>
      rw [alookup_append_of_none _ _ _ hm]
      simp [alookup, hk]

lemma keys_groupArticles (L : List Article) :
    ∀ m : Groups, (groupArticles m L).map Prod.fst =
      m.map Prod.fst ++ firstAppearances (m.map Prod.fst) (L.map (fun a => a.source)) := by
  induction L with
  | nil => intro m; simp [groupArticles, firstAppearances]
  | cons a rest ih =>
    intro m
    rw [groupArticles, ih (groupInsert m a), keys_groupInsert, List.map_cons,
      firstAppearances]
    by_cases h : a.source ∈ m.map Prod.fst
    · rw [if_pos h, if_pos h]
    · rw [if_neg h, if_neg h, List.append_assoc, List.singleton_append]
      congr 1
      congr 1
      exact firstAppearances_congr _ _ (fun x => by simp [or_comm]) _

lemma alookup_groupArticles (L : List Article) :
    ∀ (m : Groups) (k : String), alookup k (groupArticles m L) =
      match alookup k m with
      | some v => some (v ++ L.filter (fun a => a.source = k))
      | none =>
        if k ∈ L.map (fun a => a.source) then some (L.filter (fun a => a.source = k))
        else none := by
  induction L with
  | nil =>
    intro m k
    cases h : alookup k m <;> simp [groupArticles, h]
  | cons a rest ih =>
    intro m k
    rw [groupArticles, ih (groupInsert m a) k]
    by_cases hak : a.source = k
    · have hself := alookup_groupInsert_self m a
      rw [hak] at hself
      rw [hself]
      cases h : alookup k m with
      | some v =>
        simp only [h, Option.getD_some, List.filter_cons, List.map_cons]
        rw [if_pos (by simp [hak]), List.append_assoc, List.singleton_append]
      | none =>
        simp only [h, Option.getD_none, List.filter_cons, List.map_cons, List.nil_append]
        rw [if_pos (by simp [hak]), if_pos (by simp [hak]), List.singleton_append]
    · rw [alookup_groupInsert_other m a k hak]
      have hfil : List.filter (fun x => decide (x.source = k)) (a :: rest) =
          List.filter (fun x => decide (x.source = k)) rest := by
        rw [List.filter_cons]
        simp [hak]
      have hmem : (k ∈ List.map (fun x => x.source) (a :: rest)) ↔
          (k ∈ List.map (fun x => x.source) rest) := by
        rw [List.map_cons, List.mem_cons]
        exact or_iff_right (fun he => hak he.symm)
      cases h : alookup k m with
      | some v => simp only [h, hfil]
      | none =>
        simp only [h]
        by_cases hk2 : k ∈ List.map (fun x => x.source) rest
        · rw [if_pos hk2, if_pos (hmem.mpr hk2), hfil]
        · rw [if_neg hk2, if_neg (fun hc => hk2 (hmem.mp hc))]

lemma fetchStep_fst (fetch : String → SourceConfig → Except String (List Article))
    (registered : String → Bool) (acc : Groups × List String) (p : String × SourceConfig) :
    (fetchStep fetch registered acc p).1 = groupArticles acc.1 (sourceArticles fetch registered p) := by
  rw [fetchStep, sourceArticles]
  split
  · rfl
  · split
    · rfl
    · split <;> simp_all [groupArticles]

lemma fetchStep_snd (fetch : String → SourceConfig → Except String (List Article))
    (registered : String → Bool) (acc : Groups × List String) (p : String × SourceConfig) :
    (fetchStep fetch registered acc p).2 = acc.2 ++ warnOf fetch registered p := by
  rw [fetchStep, warnOf]
  split
  · simp
  · split
    · simp
    · split <;> simp_all

lemma groupArticles_append (l1 l2 : List Article) :
    ∀ m : Groups, groupArticles m (l1 ++ l2) = groupArticles (groupArticles m l1) l2 := by
  induction l1 with
  | nil => intro m; rfl
  | cons a rest ih => intro m; rw [List.cons_append, groupArticles, groupArticles, ih]

lemma fetch_all_fst (fetch : String → SourceConfig → Except String (List Article))
    (registered : String → Bool) (sources : List (String × SourceConfig)) :
    ∀ acc : Groups × List String,
      (sources.foldl (fetchStep fetch registered) acc).1 =
        groupArticles acc.1 (flatArticles fetch registered sources) := by
  induction sources with
  | nil => intro acc; rfl
  | cons p rest ih =>
    intro acc
    rw [List.foldl_cons, ih, fetchStep_fst, flatArticles, groupArticles_append]

lemma fetch_all_snd (fetch : String → SourceConfig → Except String (List Article))
    (registered : String → Bool) (sources : List (String × SourceConfig)) :
    ∀ acc : Groups × List String,
      (sources.foldl (fetchStep fetch registered) acc).2 =
        acc.2 ++ warningsOf fetch registered sources := by
  induction sources with
  | nil => intro acc; simp [warningsOf]
  | cons p rest ih =>
    intro acc
    rw [List.foldl_cons, ih, fetchStep_snd, warningsOf, List.append_assoc]

lemma flatArticles_append (fetch : String → SourceConfig → Except String (List Article))
    (registered : String → Bool) (l1 l2 : List (String × SourceConfig)) :
    flatArticles fetch registered (l1 ++ l2) =
      flatArticles fetch registered l1 ++ flatArticles fetch registered l2 := by
  induction l1 with
  | nil => rfl
  | cons p rest ih => rw [List.cons_append, flatArticles, flatArticles, ih, List.append_assoc]

lemma warningsOf_append (fetch : String → SourceConfig → Except String (List Article))
    (registered : String → Bool) (l1 l2 : List (String × SourceConfig)) :
    warningsOf fetch registered (l1 ++ l2) =
      warningsOf fetch registered l1 ++ warningsOf fetch registered l2 := by
  induction l1 with
  | nil => rfl
  | cons p rest ih => rw [List.cons_append, warningsOf, warningsOf, ih, List.append_assoc]

lemma warningsOf_eq_nil (fetch : String → SourceConfig → Except String (List Article))
    (registered : String → Bool) (l : List (String × SourceConfig))
    (h : ∀ p ∈ l, p.2.enabled = true → registered p.1 = true →
      ∃ arts, fetch p.1 p.2 = .ok arts) :
    warningsOf fetch registered l = [] := by
  induction l with
  | nil => rfl
  | cons p rest ih =>
    rw [warningsOf, ih (fun q hq => h q (List.mem_cons_of_mem p hq)), List.append_nil]
    rw [warnOf]
    split
    · rfl
    · split
      · rfl
      · rename_i he hr
        obtain ⟨arts, ha⟩ := h p (List.mem_cons_self p rest)
          (by cases hv : p.2.enabled with
              | true => rfl
              | false => exact absurd hv he)
          (by cases hv : registered p.1 with
              | true => rfl
              | false => exact absurd hv hr)
        rw [ha]

lemma fetch_all_skip (fetch : String → SourceConfig → Except String (List Article))
    (registered : String → Bool) (pre post : List (String × SourceConfig))
    (p : String × SourceConfig) (h : p.2.enabled = false ∨ registered p.1 = false) :
    fetch_all_sources fetch registered (pre ++ p :: post) =
      fetch_all_sources fetch registered (pre ++ post) := by
  rw [fetch_all_sources, fetch_all_sources, List.foldl_append, List.foldl_append,
    List.foldl_cons]
  congr 1
  rw [fetchStep]
  rcases h with h | h
  · rw [if_pos h]
  · rw [if_pos h]
    split
    · rfl
    · rfl

/-- C3: orchestrator fault isolation.  If, among the configured sources, exactly
one enabled registered source's fetch raises (`fetch name cfg = .error e`) and
every other enabled registered source succeeds, then `fetch_all_sources`
(i) prints exactly one warning line, naming the failing configured source, and
(ii) returns exactly the groups of the run without the failing source — the
failing source contributes zero articles and the other adapters' groups are
all returned. -/
theorem fetch_all_fault_isolation
    (fetch : String → SourceConfig → Except String (List Article))
    (registered : String → Bool)
    (pre post : List (String × SourceConfig)) (name e : String) (cfg : SourceConfig)
    (hen : cfg.enabled = true) (hreg : registered name = true)
    (herr : fetch name cfg = .error e)
    (hok : ∀ p ∈ pre ++ post, p.2.enabled = true → registered p.1 = true →
      ∃ arts, fetch p.1 p.2 = .ok arts) :
    (fetch_all_sources fetch registered (pre ++ (name, cfg) :: post)).2 =
      ["Warning: Failed to fetch from " ++ name ++ ": " ++ e]
    ∧ (fetch_all_sources fetch registered (pre ++ (name, cfg) :: post)).1 =
      (fetch_all_sources fetch registered (pre ++ post)).1 := by
  constructor
  · rw [fetch_all_sources, fetch_all_snd, warningsOf_append, warningsOf]
    have hpre : warningsOf fetch registered pre = [] :=
      warningsOf_eq_nil _ _ _ (fun p hp => hok p (List.mem_append_left _ hp))
    have hpost : warningsOf fetch registered post = [] :=
      warningsOf_eq_nil _ _ _ (fun p hp => hok p (List.mem_append_right _ hp))
    rw [hpre, hpost, List.nil_append, List.nil_append, List.append_nil, warnOf]
    rw [if_neg (by simp [hen]), if_neg (by simp [hreg])]
    rw [herr]
  · rw [fetch_all_sources, fetch_all_sources, fetch_all_fst, fetch_all_fst,
      flatArticles_append, flatArticles_append, flatArticles]
    have hsa : sourceArticles fetch registered (name, cfg) = [] := by
      rw [sourceArticles, if_neg (by simp [hen]), if_neg (by simp [hreg]), herr]
    rw [hsa, List.nil_append]

/-- Demo article used in concrete instantiations. -/
def demoArticle (n : String) : Article :=
  { title := "story " ++ n, url := "https://e.com/" ++ n, source := "S " ++ n }

/-- Demo adapter behaviour: every source returns one article except `lobsters`,
which raises. -/
def demoFetch : String → SourceConfig → Except String (List Article) :=
  fun n _ => if n = "lobsters" then .error "boom" else .ok [demoArticle n]

/-- Registration test against the real registry key set. -/
def demoRegistered : String → Bool := fun n => SOURCES_names.contains n

/-- Witness for `fetch_all_fault_isolation`: three configured sources of which
`lobsters` fails. -/
theorem fetch_all_fault_isolation_witness :
    (fetch_all_sources demoFetch demoRegistered
        [("hackernews", {}), ("lobsters", {}), ("devto", {})]).2 =
      ["Warning: Failed to fetch from " ++ "lobsters" ++ ": " ++ "boom"]
    ∧ (fetch_all_sources demoFetch demoRegistered
        [("hackernews", {}), ("lobsters", {}), ("devto", {})]).1 =
      (fetch_all_sources demoFetch demoRegistered
        [("hackernews", {}), ("devto", {})]).1 := by
  have h := fetch_all_fault_isolation demoFetch demoRegistered
    [("hackernews", {})] [("devto", {})] "lobsters" "boom" {}
    rfl (by decide) rfl ?_
  · exact h
  · intro p hp he hr
    have hp' : p = ("hackernews", ({} : SourceConfig)) ∨
        p = ("devto", ({} : SourceConfig)) := by simpa using hp
    rcases hp' with rfl | rfl
    · exact ⟨_, rfl⟩
    · exact ⟨_, rfl⟩

/-- C4: `fetch_all_sources` groups the flat union of all returned articles by
each article's own `source` field: (i) the mapping's keys are the distinct
display labels in order of first appearance in the flat union; (ii) any group
the lookup returns is exactly the sub-sequence of the flat union carrying that
label (so grouping is by the article's `source` field and, within a group, the
producing adapter's own output order is preserved); (iii) every label occurring
in the flat union has such a group; (iv) a configured entry that is disabled or
not registered is skipped entirely. -/
theorem fetch_all_grouping
    (fetch : String → SourceConfig → Except String (List Article))
    (registered : String → Bool) (sources : List (String × SourceConfig)) :
    ((fetch_all_sources fetch registered sources).1.map Prod.fst =
      firstAppearances [] ((flatArticles fetch registered sources).map (fun a => a.source)))
    ∧ (∀ k arts,
        alookup k (fetch_all_sources fetch registered sources).1 = some arts →
        arts = (flatArticles fetch registered sources).filter (fun a => a.source = k)
        ∧ ∀ a ∈ arts, a.source = k)
    ∧ (∀ k, k ∈ (flatArticles fetch registered sources).map (fun a => a.source) →
        alookup k (fetch_all_sources fetch registered sources).1 =
          some ((flatArticles fetch registered sources).filter (fun a => a.source = k)))
    ∧ (∀ pre p post, sources = pre ++ p :: post →
        p.2.enabled = false ∨ registered p.1 = false →
        fetch_all_sources fetch registered sources =
          fetch_all_sources fetch registered (pre ++ post)) := by
  have hfst : (fetch_all_sources fetch registered sources).1 =
      groupArticles [] (flatArticles fetch registered sources) := by
    rw [fetch_all_sources, fetch_all_fst]
  refine ⟨?_, ?_, ?_, ?_⟩
  · rw [hfst, keys_groupArticles]
    rfl
  · intro k arts h
    rw [hfst, alookup_groupArticles] at h
    have h' : (if k ∈ (flatArticles fetch registered sources).map (fun a => a.source)
        then some ((flatArticles fetch registered sources).filter (fun a => a.source = k))
        else none) = some arts := h
    by_cases hm : k ∈ (flatArticles fetch registered sources).map (fun a => a.source)
    · rw [if_pos hm] at h'
      have harts := Option.some.inj h'
      refine ⟨harts.symm, ?_⟩
      intro a ha
      rw [← harts] at ha
      have := List.of_mem_filter ha
      exact of_decide_eq_true this
    · rw [if_neg hm] at h'
      exact absurd h' (by simp)
  · intro k hk
    rw [hfst, alookup_groupArticles]
    show (if k ∈ (flatArticles fetch registered sources).map (fun a => a.source)
        then some ((flatArticles fetch registered sources).filter (fun a => a.source = k))
        else none) = _
    rw [if_pos hk]
  · intro pre p post hs h
    rw [hs]
    exact fetch_all_skip fetch registered pre post p h

/-- Witness for `fetch_all_grouping`: a run with a disabled `reddit` entry;
conjuncts (i), (iii) at label `"S hackernews"` and (iv) at the disabled entry. -/
theorem fetch_all_grouping_witness :
    ((fetch_all_sources demoFetch demoRegistered
        [("hackernews", {}), ("reddit", { enabled := false }), ("devto", {})]).1.map Prod.fst =
      firstAppearances []
        ((flatArticles demoFetch demoRegistered
          [("hackernews", {}), ("reddit", { enabled := false }), ("devto", {})]).map
            (fun a => a.source)))
    ∧ (alookup "S hackernews"
        (fetch_all_sources demoFetch demoRegistered
          [("hackernews", {}), ("reddit", { enabled := false }), ("devto", {})]).1 =
        some ((flatArticles demoFetch demoRegistered
          [("hackernews", {}), ("reddit", { enabled := false }), ("devto", {})]).filter
            (fun a => a.source = "S hackernews")))
    ∧ (fetch_all_sources demoFetch demoRegistered
        [("hackernews", {}), ("reddit", { enabled := false }), ("devto", {})] =
      fetch_all_sources demoFetch demoRegistered [("hackernews", {}), ("devto", {})]) := by
  obtain ⟨h1, _, h3, h4⟩ := fetch_all_grouping demoFetch demoRegistered
    [("hackernews", {}), ("reddit", { enabled := false }), ("devto", {})]
  exact ⟨h1, h3 "S hackernews" (by decide),
    h4 [("hackernews", {})] ("reddit", { enabled := false }) [("devto", {})] rfl
      (Or.inl rfl)⟩

/-- The URL-deduplication loop of `DevToSource.fetch`
(`seen_urls` set, `unique_articles` list): keep the first occurrence of every URL. -/
def dedupGo (seen : List String) : List Article → List Article
  | [] => []
  | a :: rest =>
    if a.url ∈ seen then dedupGo seen rest
    else a :: dedupGo (a.url :: seen) rest

/-- `DevToSource.fetch`'s dedup pass starting from an empty `seen_urls` set. -/
def dedupByUrl (l : List Article) : List Article := dedupGo [] l

lemma dedupGo_sublist (l : List Article) :
    ∀ seen, List.Sublist (dedupGo seen l) l := by
  induction l with
  | nil => intro seen; exact List.Sublist.refl _
  | cons a rest ih =>
    intro seen
    rw [dedupGo]
    split
    · exact (ih seen).cons a
    · exact (ih (a.url :: seen)).cons₂ a

lemma filter_dedupGo (u : String) (l : List Article) :
    ∀ seen, (dedupGo seen l).filter (fun x => x.url = u) =
      if u ∈ seen then [] else (l.filter (fun x => x.url = u)).take 1 := by
  induction l with
  | nil =>
    intro seen
    rw [dedupGo]
    by_cases h : u ∈ seen <;> simp [h]
  | cons a rest ih =>
    intro seen
    rw [dedupGo]
    by_cases hau : a.url = u
    · subst hau
      split
      · rename_i hseen
        rw [ih seen, if_pos hseen]
      · rename_i hseen
        rw [List.filter_cons_of_pos (by simp), List.filter_cons_of_pos (by simp),
          ih (a.url :: seen), if_pos (List.mem_cons_self _ _)]
        rfl
    · split
      · rename_i hseen
        rw [ih seen, List.filter_cons_of_neg (by simp [hau])]
      · rename_i hseen
        rw [List.filter_cons_of_neg (by simp [hau]),
          List.filter_cons_of_neg (by simp [hau]), ih (a.url :: seen)]
        by_cases h2 : u ∈ seen
        · rw [if_pos h2, if_pos (List.mem_cons_of_mem _ h2)]
        · rw [if_neg h2, if_neg (by
            intro hc
            rcases List.mem_cons.mp hc with he | he
            · exact hau he.symm
            · exact h2 he)]

lemma dedupGo_url_not_seen (l : List Article) :
    ∀ seen, ∀ b ∈ dedupGo seen l, b.url ∉ seen := by
  induction l with
  | nil => intro seen b hb; simp [dedupGo] at hb
  | cons a rest ih =>
    intro seen b hb
    rw [dedupGo] at hb
    split at hb
    · exact ih seen b hb
    · rcases List.mem_cons.mp hb with rfl | hb'
      · assumption
      · intro hc
        exact ih (a.url :: seen) b hb' (List.mem_cons_of_mem _ hc)

lemma dedupGo_urls_nodup (l : List Article) :
    ∀ seen, ((dedupGo seen l).map (fun a => a.url)).Nodup := by
  induction l with
  | nil => intro seen; simp [dedupGo]
  | cons a rest ih =>
    intro seen
    rw [dedupGo]
    split
    · exact ih seen
    · rw [List.map_cons, List.nodup_cons]
      refine ⟨?_, ih (a.url :: seen)⟩
      intro hc
      obtain ⟨b, hb, hbu⟩ := List.mem_map.mp hc
      exact dedupGo_url_not_seen rest (a.url :: seen) b hb
        (by rw [hbu]; exact List.mem_cons_self _ _)

/-- The fan-in loop shared by the Dev.to, Reddit and RSS adapters:
`for result in results: if isinstance(result, list): articles.extend(result)`
(an `asyncio.gather(..., return_exceptions=True)` result that is an exception is
skipped). -/
def gatherLists : List (Except String (List Article)) → List Article
  | [] => []
  | .ok l :: rest => l ++ gatherLists rest
  | .error _ :: rest => gatherLists rest

namespace DevToSource

/-- `DevToSource.display_name`. -/
def display_name : String := "Dev.to"

/-- The merged per-tag articles of `DevToSource.fetch`: one `_fetch_tag` request
per configured tag, exceptions skipped, results concatenated in tag order. -/
def tagArticles (cfg : SourceConfig)
    (tagFetch : String → Except String (List Article)) : List Article :=
  gatherLists (cfg.tags.map tagFetch)

/-- `unique_articles` of `DevToSource.fetch`: sort merged articles by descending
score (`sorted(articles, key=lambda a: a.score, reverse=True)`), then keep the
first occurrence of each URL. -/
def uniqueArticles (cfg : SourceConfig)
    (tagFetch : String → Except String (List Article)) : List Article :=
  dedupByUrl (sortDescBy (fun a => a.score) (tagArticles cfg tagFetch))

/-- `DevToSource.fetch`: with configured tags, merge, dedup and cap at
`config.max_items`; without tags, return the `_fetch_top` result. -/
def fetch (cfg : SourceConfig) (tagFetch : String → Except String (List Article))
    (topArticles : List Article) : List Article :=
  if cfg.tags.isEmpty then topArticles
  else (uniqueArticles cfg tagFetch).take cfg.max_items

end DevToSource

lemma mem_gatherLists (rs : List (Except String (List Article))) (a : Article) :
    a ∈ gatherLists rs ↔ ∃ l, Except.ok l ∈ rs ∧ a ∈ l := by
  induction rs with
  | nil => simp [gatherLists]
  | cons r rest ih =>
    cases r with
    | ok l => simp [gatherLists, ih]
    | error e => simp [gatherLists, ih]

/-- C5: with configured tags, the Dev.to adapter's merged, deduplicated list
contains each fetched URL exactly once (URLs are `Nodup` and every merged URL
survives); when several fetched items share a URL, the kept copy's score is
maximal among them (so with two different scores the higher one is kept); and
`fetch` returns that list capped at `config.max_items`, ordered by descending
score. -/
theorem devto_fetch_dedup (cfg : SourceConfig)
    (tagFetch : String → Except String (List Article)) (topArticles : List Article)
    (h : cfg.tags ≠ []) :
    (((DevToSource.uniqueArticles cfg tagFetch).map (fun a => a.url)).Nodup
    ∧ (∀ a ∈ DevToSource.tagArticles cfg tagFetch,
        ∃ b ∈ DevToSource.uniqueArticles cfg tagFetch, b.url = a.url)
    ∧ (∀ a ∈ DevToSource.tagArticles cfg tagFetch,
        ∀ b ∈ DevToSource.uniqueArticles cfg tagFetch, b.url = a.url →
          a.score ≤ b.score)
    ∧ DevToSource.fetch cfg tagFetch topArticles =
        (DevToSource.uniqueArticles cfg tagFetch).take cfg.max_items
    ∧ (DevToSource.fetch cfg tagFetch topArticles).length ≤ cfg.max_items
    ∧ (DevToSource.fetch cfg tagFetch topArticles).Pairwise
        (fun x y => y.score ≤ x.score)) := by
  have hne : cfg.tags.isEmpty = false := by
    cases htags : cfg.tags with
    | nil => exact absurd htags h
    | cons t ts => rfl
  have hfetch : DevToSource.fetch cfg tagFetch topArticles =
      (DevToSource.uniqueArticles cfg tagFetch).take cfg.max_items := by
    rw [DevToSource.fetch, hne]
    rfl
  have hpair : (sortDescBy (fun a : Article => a.score)
      (DevToSource.tagArticles cfg tagFetch)).Pairwise
        (fun x y => (fun a : Article => a.score) y ≤ (fun a : Article => a.score) x) :=
    pairwise_sortDescBy _ _
  refine ⟨dedupGo_urls_nodup _ [], ?_, ?_, hfetch, ?_, ?_⟩
  · intro a ha
    have hmem : a ∈ sortDescBy (fun a : Article => a.score)
        (DevToSource.tagArticles cfg tagFetch) :=
      (mem_sortDescBy _ _ a).mpr ha
    have hfil := filter_dedupGo a.url
      (sortDescBy (fun a : Article => a.score) (DevToSource.tagArticles cfg tagFetch)) []
    rw [if_neg (List.not_mem_nil a.url)] at hfil
    have hmemf : a ∈ (sortDescBy (fun a : Article => a.score)
        (DevToSource.tagArticles cfg tagFetch)).filter (fun x => x.url = a.url) :=
      List.mem_filter.mpr ⟨hmem, by simp⟩
    cases hcase : (sortDescBy (fun a : Article => a.score)
        (DevToSource.tagArticles cfg tagFetch)).filter (fun x => x.url = a.url) with
    | nil => rw [hcase] at hmemf; simp at hmemf
    | cons b t =>
      refine ⟨b, ?_, ?_⟩
      · have : b ∈ (DevToSource.uniqueArticles cfg tagFetch).filter
            (fun x => x.url = a.url) := by
          rw [DevToSource.uniqueArticles, dedupByUrl, hfil, hcase]
          simp
        exact List.mem_of_mem_filter this
      · have : b ∈ (sortDescBy (fun a : Article => a.score)
            (DevToSource.tagArticles cfg tagFetch)).filter (fun x => x.url = a.url) := by
          rw [hcase]; exact List.mem_cons_self _ _
        have := List.of_mem_filter this
        exact of_decide_eq_true this
  · intro a ha b hb hurl
    have hfil := filter_dedupGo a.url
      (sortDescBy (fun a : Article => a.score) (DevToSource.tagArticles cfg tagFetch)) []
    rw [if_neg (List.not_mem_nil a.url)] at hfil
    have hbf : b ∈ (DevToSource.uniqueArticles cfg tagFetch).filter
        (fun x => x.url = a.url) :=
      List.mem_filter.mpr ⟨hb, by simp [hurl]⟩
    rw [DevToSource.uniqueArticles, dedupByUrl, hfil] at hbf
    have hmem : a ∈ sortDescBy (fun a : Article => a.score)
        (DevToSource.tagArticles cfg tagFetch) :=
      (mem_sortDescBy _ _ a).mpr ha
    have hmemf : a ∈ (sortDescBy (fun a : Article => a.score)
        (DevToSource.tagArticles cfg tagFetch)).filter (fun x => x.url = a.url) :=
      List.mem_filter.mpr ⟨hmem, by simp⟩
    cases hcase : (sortDescBy (fun a : Article => a.score)
        (DevToSource.tagArticles cfg tagFetch)).filter (fun x => x.url = a.url) with
    | nil => rw [hcase] at hmemf; simp at hmemf
    | cons c t =>
      rw [hcase] at hbf hmemf
      have hb_eq : b = c := by
        have : (c :: t).take 1 = [c] := rfl
        rw [this] at hbf
        simpa using hbf
      have hpairf : ((sortDescBy (fun a : Article => a.score)
          (DevToSource.tagArticles cfg tagFetch)).filter
            (fun x => x.url = a.url)).Pairwise (fun x y => y.score ≤ x.score) :=
        List.Pairwise.filter _ hpair
      rw [hcase, List.pairwise_cons] at hpairf
      rcases List.mem_cons.mp hmemf with rfl | hat
      · rw [hb_eq]
      · rw [hb_eq]
        exact hpairf.1 a hat
  · rw [hfetch]
    exact (List.length_take _ _).trans_le (Nat.min_le_left _ _)
  · rw [hfetch]
    have hsub : List.Sublist ((DevToSource.uniqueArticles cfg tagFetch).take cfg.max_items)
        (sortDescBy (fun a : Article => a.score) (DevToSource.tagArticles cfg tagFetch)) :=
      (List.take_sublist _ _).trans (dedupGo_sublist _ [])
    exact hpair.sublist hsub

/-- Demo configuration with tags for the Dev.to adapter. -/
def demoTagCfg : SourceConfig := { tags := ["python", "ai"], max_items := 3 }

/-- Demo articles sharing a URL with different scores. -/
def artA : Article := { title := "A", url := "https://e.com/1", source := "Dev.to", score := 5 }

/-- Demo article with a distinct URL. -/
def artB : Article := { title := "B", url := "https://e.com/2", source := "Dev.to", score := 7 }

/-- Higher-scoring duplicate of `artA`'s URL. -/
def artA2 : Article := { title := "A2", url := "https://e.com/1", source := "Dev.to", score := 9 }

/-- Demo per-tag fetch results with one overlapping URL. -/
def demoTagFetch : String → Except String (List Article) :=
  fun t => if t = "python" then .ok [artA, artB] else .ok [artA2]

/-- Witness for `devto_fetch_dedup` on two tags with an overlapping URL. -/
theorem devto_fetch_dedup_witness :
    demoTagCfg.tags ≠ []
    ∧ ((DevToSource.uniqueArticles demoTagCfg demoTagFetch).map (fun a => a.url)).Nodup
    ∧ DevToSource.fetch demoTagCfg demoTagFetch [] =
        (DevToSource.uniqueArticles demoTagCfg demoTagFetch).take demoTagCfg.max_items
    ∧ (DevToSource.fetch demoTagCfg demoTagFetch []).length ≤ demoTagCfg.max_items
    ∧ (DevToSource.fetch demoTagCfg demoTagFetch []).Pairwise
        (fun x y => y.score ≤ x.score) := by
  have h := devto_fetch_dedup demoTagCfg demoTagFetch [] (by decide)
  exact ⟨by decide, h.1, h.2.2.2.1, h.2.2.2.2.1, h.2.2.2.2.2⟩

lemma filter_eq_nil_of {α : Type} (p : α → Bool) (l : List α)
    (h : ∀ c ∈ l, p c = false) : l.filter p = [] := by
  induction l with
  | nil => rfl
  | cons c rest ih =>
    rw [List.filter_cons_of_neg (by simp [h c (List.mem_cons_self _ _)])]
    exact ih (fun d hd => h d (List.mem_cons_of_mem _ hd))

/-- C10: the Dev.to URL-dedup is stable on ties.  If the concatenated per-tag
results contain exactly two articles `a` (earlier) and `b` (later) with a given
URL, with equal scores, then the dedup deterministically keeps `a` — the copy
from the earlier configured tag position — and drops `b`. -/
theorem devto_dedup_stable (cfg : SourceConfig)
    (tagFetch : String → Except String (List Article))
    (a b : Article) (pre mid post : List Article)
    (hsplit : DevToSource.tagArticles cfg tagFetch = pre ++ a :: mid ++ b :: post)
    (hurl : a.url = b.url) (hscore : a.score = b.score) (hab : a ≠ b)
    (honly : ∀ c, (c ∈ pre ∨ c ∈ mid ∨ c ∈ post) → ¬ c.url = a.url) :
    a ∈ DevToSource.uniqueArticles cfg tagFetch
    ∧ b ∉ DevToSource.uniqueArticles cfg tagFetch := by
  have hpre : pre.filter (fun x => x.url = a.url) = [] :=
    filter_eq_nil_of _ _ (fun c hc => by simp [honly c (Or.inl hc)])
  have hmid : mid.filter (fun x => x.url = a.url) = [] :=
    filter_eq_nil_of _ _ (fun c hc => by simp [honly c (Or.inr (Or.inl hc))])
  have hpost : post.filter (fun x => x.url = a.url) = [] :=
    filter_eq_nil_of _ _ (fun c hc => by simp [honly c (Or.inr (Or.inr hc))])
  have hLfil : (DevToSource.tagArticles cfg tagFetch).filter
      (fun x => x.url = a.url) = [a, b] := by
    rw [hsplit, List.filter_append, List.filter_append, hpre, List.nil_append,
      List.filter_cons_of_pos (by simp), hmid,
      List.filter_cons_of_pos (by simp [hurl.symm]), hpost]
    rfl
  have hScoreAll : ∀ x ∈ DevToSource.tagArticles cfg tagFetch,
      x.url = a.url → x.score = a.score := by
    intro x hx hxu
    rw [hsplit] at hx
    rcases List.mem_append.mp hx with hx | hx
    · rcases List.mem_append.mp hx with hx | hx
      · exact absurd hxu (honly x (Or.inl hx))
      · rcases List.mem_cons.mp hx with rfl | hx
        · rfl
        · exact absurd hxu (honly x (Or.inr (Or.inl hx)))
    · rcases List.mem_cons.mp hx with rfl | hx
      · exact hscore.symm
      · exact absurd hxu (honly x (Or.inr (Or.inr hx)))
  have h1 : (sortDescBy (fun x : Article => x.score)
        (DevToSource.tagArticles cfg tagFetch)).filter (fun x => x.url = a.url) =
      (sortDescBy (fun x : Article => x.score)
        (DevToSource.tagArticles cfg tagFetch)).filter
          (fun x => decide (x.url = a.url) && decide (x.score = a.score)) := by
    refine List.filter_congr ?_
    intro x hx
    by_cases hxu : x.url = a.url
    · have hxs := hScoreAll x ((mem_sortDescBy _ _ x).mp hx) hxu
      simp [hxu, hxs]
    · simp [hxu]
  have h2 : (DevToSource.tagArticles cfg tagFetch).filter
        (fun x => decide (x.url = a.url) && decide (x.score = a.score)) =
      (DevToSource.tagArticles cfg tagFetch).filter (fun x => x.url = a.url) := by
    refine List.filter_congr ?_
    intro x hx
    by_cases hxu : x.url = a.url
    · have hxs := hScoreAll x hx hxu
      simp [hxu, hxs]
    · simp [hxu]
  have hSfil : (sortDescBy (fun x : Article => x.score)
      (DevToSource.tagArticles cfg tagFetch)).filter (fun x => x.url = a.url) =
      [a, b] := by
    rw [h1, ← List.filter_filter, sortDescBy_filter_key, List.filter_filter, h2, hLfil]
  have hfilU : (DevToSource.uniqueArticles cfg tagFetch).filter
      (fun x => x.url = a.url) = [a] := by
    rw [DevToSource.uniqueArticles, dedupByUrl, filter_dedupGo,
      if_neg (List.not_mem_nil _), hSfil]
    rfl
  constructor
  · have : a ∈ (DevToSource.uniqueArticles cfg tagFetch).filter
        (fun x => x.url = a.url) := by
      rw [hfilU]; exact List.mem_cons_self _ _
    exact List.mem_of_mem_filter this
  · intro hb
    have : b ∈ (DevToSource.uniqueArticles cfg tagFetch).filter
        (fun x => x.url = a.url) :=
      List.mem_filter.mpr ⟨hb, by simp [hurl.symm]⟩
    rw [hfilU] at this
    have : b = a := by simpa using this
    exact hab this.symm

/-- First copy of a tied URL, from the earlier tag. -/
def artT1 : Article := { title := "first", url := "https://e.com/t", source := "Dev.to", score := 4 }

/-- Second copy of the tied URL, from the later tag. -/
def artT2 : Article := { title := "second", url := "https://e.com/t", source := "Dev.to", score := 4 }

/-- Per-tag fetch results producing the two tied copies in tag order. -/
def demoTieFetch : String → Except String (List Article) :=
  fun t => if t = "python" then .ok [artT1] else .ok [artT2]

/-- Witness for `devto_dedup_stable`: two equal-score copies of one URL coming
from the two configured tags; the earlier one is kept. -/
theorem devto_dedup_stable_witness :
    (DevToSource.tagArticles demoTagCfg demoTieFetch =
      [] ++ artT1 :: [] ++ artT2 :: [])
    ∧ artT1.url = artT2.url ∧ artT1.score = artT2.score ∧ artT1 ≠ artT2
    ∧ (artT1 ∈ DevToSource.uniqueArticles demoTagCfg demoTieFetch
      ∧ artT2 ∉ DevToSource.uniqueArticles demoTagCfg demoTieFetch) := by
  refine ⟨by decide, rfl, rfl, by decide, ?_⟩
  exact devto_dedup_stable demoTagCfg demoTieFetch artT1 artT2 [] [] []
    (by decide) rfl rfl (by decide)
    (by intro c hc; rcases hc with hc | hc | hc <;> simp at hc)

namespace RedditSource

/-- `RedditSource.fetch` (`sources/reddit.py`): with no configured subreddits
return `[]`; otherwise fan out one `_fetch_subreddit` request per community
(exceptions skipped by the `isinstance(result, list)` check), sort the combined
list by descending score (`articles.sort(key=lambda a: a.score, reverse=True)`)
and cap at `config.max_items`. -/
def fetch (cfg : SourceConfig)
    (subFetch : String → Except String (List Article)) : List Article :=
  if cfg.subreddits.isEmpty then []
  else (sortDescBy (fun a : Article => a.score)
    (gatherLists (cfg.subreddits.map subFetch))).take cfg.max_items

end RedditSource

/-- C6: the Reddit adapter's cap is global.  Whatever the distribution of items
across the configured communities, the combined result is sorted by descending
score across all communities and its length is
`min(total_items, config.max_items)` where `total_items` is the size of the
combined fan-in (with no configured subreddits both sides are `0`). -/
theorem reddit_fetch_global_cap (cfg : SourceConfig)
    (subFetch : String → Except String (List Article)) :
    (RedditSource.fetch cfg subFetch).length =
      min (gatherLists (cfg.subreddits.map subFetch)).length cfg.max_items
    ∧ (RedditSource.fetch cfg subFetch).Pairwise (fun x y => y.score ≤ x.score) := by
  constructor
  · rw [RedditSource.fetch]
    split
    · rename_i h
      have hnil : cfg.subreddits = [] := by
        cases h' : cfg.subreddits with
        | nil => rfl
        | cons s rest => rw [h'] at h; exact absurd h (by simp)
      rw [hnil]
      simp [gatherLists]
    · rw [List.length_take, length_sortDescBy]
      exact Nat.min_comm _ _
  · rw [RedditSource.fetch]
    split
    · exact List.Pairwise.nil
    · exact (pairwise_sortDescBy _ _).sublist (List.take_sublist _ _)

namespace RSSSource

/-- One parsed feed entry (`feedparser` entry): `none` models a missing
attribute (`hasattr(entry, field)` false).  `content?` models
`entry.content and entry.content[0].get("value", "")` being available. -/
structure FeedEntry where
  title? : Option String := none
  link? : Option String := none
  author? : Option String := none
  published? : Option String := none
  updated? : Option String := none
  created? : Option String := none
  summary? : Option String := none
  content? : Option String := none
deriving Repr, DecidableEq

/-- The date-resolution loop of `_fetch_feed`: walk `published`, `updated`,
`created` in order; take the first field that is present and parseable
(`date_parser.parse` failure falls through to the next field). -/
def resolveDate (parseDate : String → Option Nat) : List (Option String) → Option Nat
  | [] => none
  | some s :: rest =>
    match parseDate s with
    | some t => some t
    | none => resolveDate parseDate rest
  | none :: rest => resolveDate parseDate rest

/-- The resolved publication timestamp of one entry. -/
def entryDate (parseDate : String → Option Nat) (e : FeedEntry) : Option Nat :=
  resolveDate parseDate [e.published?, e.updated?, e.created?]

/-- The summary resolution of `_fetch_feed`: prefer `summary` over `content`,
strip markup (`cleanHtml` models BeautifulSoup's `get_text`), and hard-truncate
over-500-character text to 497 characters plus an ellipsis. -/
def entrySummary (cleanHtml : String → String) (e : FeedEntry) : String :=
  let s :=
    match e.summary? with
    | some t => cleanHtml t
    | none =>
      match e.content? with
      | some c => cleanHtml c
      | none => ""
  if 500 < s.length then String.mk (s.data.take 497) ++ "..." else s

/-- The `Article(...)` construction of `_fetch_feed` (title defaults to
`"Untitled"`, link to `""`), followed by `__post_init__` at fetch time `now`. -/
def entryArticle (parseDate : String → Option Nat) (cleanHtml : String → String)
    (now : Nat) (name : String) (e : FeedEntry) : Article :=
  Article.post_init now
    { title := e.title?.getD "Untitled"
      url := e.link?.getD ""
      source := name
      author := e.author?.getD ""
      published_at := entryDate parseDate e
      summary := entrySummary cleanHtml e }

/-- `_fetch_feed`: an entry with no URL yields nothing; a fetch/parse failure is
caught and yields nothing; otherwise the first 10 raw entries are parsed, with
the display name defaulting to the feed URL. -/
def fetch_feed (parseDate : String → Option Nat) (cleanHtml : String → String)
    (now : Nat) (feedOf : FeedConfig → Except String (List FeedEntry))
    (fc : FeedConfig) : List Article :=
  let url := fc.url?.getD ""
  let name := match fc.name? with | some n => n | none => url
  if url = "" then []
  else
    match feedOf fc with
    | .ok entries => (entries.take 10).map (entryArticle parseDate cleanHtml now name)
    | .error _ => []

/-- The sort key of `RSSSource.fetch`: `a.published_at or datetime.min`
(`datetime.min` is modelled as `0`; `datetime` objects are always truthy). -/
def rssKey (a : Article) : Nat := a.published_at.getD 0

/-- Concatenation of the per-feed results (all `_fetch_feed` results are lists,
its exceptions being caught internally). -/
def concatAll : List (List Article) → List Article
  | [] => []
  | l :: rest => l ++ concatAll rest

/-- `RSSSource.fetch`: no feeds → `[]`; otherwise merge all feeds' articles,
sort by publication date descending (key `a.published_at or datetime.min`) and
cap at `config.max_items`. -/
def fetch (cfg : SourceConfig) (parseDate : String → Option Nat)
    (cleanHtml : String → String) (now : Nat)
    (feedOf : FeedConfig → Except String (List FeedEntry)) : List Article :=
  if cfg.feeds.isEmpty then []
  else (sortDescBy rssKey
    (concatAll (cfg.feeds.map (fetch_feed parseDate cleanHtml now feedOf)))).take
      cfg.max_items

end RSSSource

lemma mem_concatAll (ls : List (List Article)) (a : Article) :
    a ∈ RSSSource.concatAll ls ↔ ∃ l ∈ ls, a ∈ l := by
  induction ls with
  | nil => simp [RSSSource.concatAll]
  | cons l rest ih => simp [RSSSource.concatAll, ih]

lemma fetch_feed_published_isSome (parseDate : String → Option Nat)
    (cleanHtml : String → String) (now : Nat)
    (feedOf : FeedConfig → Except String (List RSSSource.FeedEntry)) (fc : FeedConfig) :
    ∀ a ∈ RSSSource.fetch_feed parseDate cleanHtml now feedOf fc,
      a.published_at.isSome = true := by
  intro a ha
  rw [RSSSource.fetch_feed] at ha
  split at ha
  · simp at ha
  · split at ha
    · obtain ⟨e, _, rfl⟩ := List.mem_map.mp ha
      rfl
    · simp at ha

/-- Demo date parser: only the string `"2020"` parses (to time `50`). -/
def demoParseDate : String → Option Nat := fun s => if s = "2020" then some 50 else none

/-- Feed entry with a parseable `published` field. -/
def entryHasDate : RSSSource.FeedEntry :=
  { title? := some "hasdate", link? := some "https://e.com/a", published? := some "2020" }

/-- Feed entry with none of `published`/`updated`/`created` present. -/
def entryNoDate : RSSSource.FeedEntry :=
  { title? := some "nodate", link? := some "https://e.com/b" }

/-- One configured feed. -/
def demoFeedCfg : FeedConfig := { url? := some "https://feed.example/rss", name? := some "Blog" }

/-- RSS source configuration with that one feed. -/
def demoRssCfg : SourceConfig := { feeds := [demoFeedCfg], max_items := 5 }

/-- The feed's parsed entries: a dated entry followed by an undated one. -/
def demoFeedOf : FeedConfig → Except String (List RSSSource.FeedEntry) :=
  fun _ => .ok [entryHasDate, entryNoDate]

/-- C7, counterexample.  An item with no resolvable timestamp does NOT sort as
oldest: `__post_init__` replaces its `None` publication date with the fetch
time `now` (here `100`), so it sorts as the NEWEST item, ahead of a real
article dated `50`; the `or datetime.min` fallback in the sort key never sees a
`None`.  The claimed oldest-last order `["hasdate", "nodate"]` is refuted. -/
theorem rss_no_timestamp_counterexample :
    RSSSource.entryDate demoParseDate entryNoDate = none
    ∧ (RSSSource.fetch demoRssCfg demoParseDate id 100 demoFeedOf).map
        (fun a => (a.title, a.published_at)) =
      [("nodate", some 100), ("hasdate", some 50)]
    ∧ (RSSSource.fetch demoRssCfg demoParseDate id 100 demoFeedOf).map
        (fun a => a.title) ≠ ["hasdate", "nodate"] := by
  refine ⟨rfl, by decide, by decide⟩

/-- C7 (amended): the generic feed adapter merges all feeds, sorts globally by
descending publication time (key `published_at or datetime.min`) and caps at
`config.max_items`; but an item with no resolvable timestamp is constructed
with `published_at = now` (the fetch time) by `__post_init__`, so no emitted
article ever has an absent timestamp (the `datetime.min` fallback is
unreachable) and such items sort at the fetch time — typically newest — rather
than as oldest. -/
theorem rss_fetch_sorted (cfg : SourceConfig) (parseDate : String → Option Nat)
    (cleanHtml : String → String) (now : Nat)
    (feedOf : FeedConfig → Except String (List RSSSource.FeedEntry)) :
    (RSSSource.fetch cfg parseDate cleanHtml now feedOf).length ≤ cfg.max_items
    ∧ (RSSSource.fetch cfg parseDate cleanHtml now feedOf).Pairwise
        (fun x y => RSSSource.rssKey y ≤ RSSSource.rssKey x)
    ∧ (∀ a ∈ RSSSource.fetch cfg parseDate cleanHtml now feedOf,
        a.published_at.isSome = true)
    ∧ (∀ (name : String) (e : RSSSource.FeedEntry),
        RSSSource.entryDate parseDate e = none →
        (RSSSource.entryArticle parseDate cleanHtml now name e).published_at =
          some now) := by
  refine ⟨?_, ?_, ?_, ?_⟩
  · rw [RSSSource.fetch]
    split
    · simp
    · exact (List.length_take _ _).trans_le (Nat.min_le_left _ _)
  · rw [RSSSource.fetch]
    split
    · exact List.Pairwise.nil
    · exact (pairwise_sortDescBy RSSSource.rssKey _).sublist (List.take_sublist _ _)
  · intro a ha
    rw [RSSSource.fetch] at ha
    split at ha
    · simp at ha
    · have ha2 : a ∈ sortDescBy RSSSource.rssKey
          (RSSSource.concatAll (cfg.feeds.map
            (RSSSource.fetch_feed parseDate cleanHtml now feedOf))) :=
        (List.take_sublist _ _).mem ha
      have ha3 := (mem_sortDescBy _ _ a).mp ha2
      obtain ⟨l, hl, hal⟩ := (mem_concatAll _ a).mp ha3
      obtain ⟨fc, _, rfl⟩ := List.mem_map.mp hl
      exact fetch_feed_published_isSome parseDate cleanHtml now feedOf fc a hal
  · intro name e he
    rw [RSSSource.entryArticle, Article.post_init]
    simp [he]

/-- Witness for `rss_fetch_sorted` on the demo feed: the cap and sortedness
hold, the undated entry's article is in the output with a present timestamp,
and its timestamp is the fetch time `100`. -/
theorem rss_fetch_sorted_witness :
    (RSSSource.fetch demoRssCfg demoParseDate id 100 demoFeedOf).length ≤
      demoRssCfg.max_items
    ∧ (RSSSource.fetch demoRssCfg demoParseDate id 100 demoFeedOf).Pairwise
        (fun x y => RSSSource.rssKey y ≤ RSSSource.rssKey x)
    ∧ (RSSSource.entryArticle demoParseDate id 100 "Blog" entryNoDate).published_at.isSome
        = true
    ∧ (RSSSource.entryArticle demoParseDate id 100 "Blog" entryNoDate).published_at =
        some 100 := by
  have h := rss_fetch_sorted demoRssCfg demoParseDate id 100 demoFeedOf
  refine ⟨h.1, h.2.1, ?_, h.2.2.2 "Blog" entryNoDate rfl⟩
  exact h.2.2.1 (RSSSource.entryArticle demoParseDate id 100 "Blog" entryNoDate)
    (by decide)

/-- The `user` sub-dict of a Dev.to API item (`item.get("user", {})`). -/
structure DevToUser where
  username? : Option String := none
deriving Repr, DecidableEq

/-- One Dev.to API item as consumed by `_parse_articles`; `none` models an
absent key (every read uses `item.get(key, default)`). -/
structure DevToItem where
  title? : Option String := none
  url? : Option String := none
  published_at? : Option String := none
  user? : Option DevToUser := none
  positive_reactions_count? : Option Int := none
  comments_count? : Option Int := none
  description? : Option String := none
  tag_list? : Option (List String) := none
deriving Repr, DecidableEq

namespace DevToSource

/-- `DevToSource._parse_articles`: one `Article(...)` per item, with every
field defaulted when absent (`item.get(..., "")` etc.); `if item.get("published_at")`
is Python truthiness (present and non-empty), a parse failure falls back to
`datetime.now()`, and `__post_init__` runs on construction. -/
def parse_articles (parseDate : String → Option Nat) (now : Nat)
    (data : List DevToItem) : List Article :=
  data.map (fun item =>
    let published : Option Nat :=
      match item.published_at? with
      | some s =>
        if s = "" then none
        else
          match parseDate s with
          | some t => some t
          | none => some now
      | none => none
    Article.post_init now
      { title := item.title?.getD ""
        url := item.url?.getD ""
        source := display_name
        author := match item.user? with | some u => u.username?.getD "" | none => ""
        score := item.positive_reactions_count?.getD 0
        comments_count := item.comments_count?.getD 0
        comments_url := item.url?.getD ""
        published_at := published
        summary := item.description?.getD ""
        tags := item.tag_list?.getD [] })

end DevToSource

/-- C1, counterexample.  An API item with no `title` and no `url` is NOT
dropped: `_parse_articles` emits one Article whose `title` and `url` are both
the empty string, and with no configured tags `DevToSource.fetch` returns that
partial record unchanged — contradicting the invariant that an adapter unable
to populate both fields must drop the item. -/
theorem adapter_partial_record_counterexample :
    (DevToSource.parse_articles (fun _ => none) 0 [{}]).map
      (fun a => (a.title, a.url)) = [("", "")]
    ∧ (DevToSource.fetch { tags := [] } (fun _ => .error "unused")
        (DevToSource.parse_articles (fun _ => none) 0 [{}])).map
          (fun a => (a.title, a.url)) = [("", "")] :=
  ⟨by decide, by decide⟩

/-- C1 (amended): adapters do not enforce non-empty `title`/`url` and drop
nothing: `_parse_articles` emits exactly one Article per API item, defaulting a
missing title or url to the empty string (and the RSS adapter defaults a
missing entry title to `"Untitled"` and a missing link to `""`). -/
theorem adapter_no_drop (parseDate : String → Option Nat) (now : Nat)
    (data : List DevToItem) (cleanHtml : String → String) :
    (DevToSource.parse_articles parseDate now data).length = data.length
    ∧ List.Forall₂
        (fun (b : Article) (item : DevToItem) =>
          b.title = item.title?.getD "" ∧ b.url = item.url?.getD "")
        (DevToSource.parse_articles parseDate now data) data
    ∧ (∀ (name : String) (e : RSSSource.FeedEntry),
        (RSSSource.entryArticle parseDate cleanHtml now name e).title =
          e.title?.getD "Untitled"
        ∧ (RSSSource.entryArticle parseDate cleanHtml now name e).url =
          e.link?.getD "") := by
  refine ⟨by rw [DevToSource.parse_articles, List.length_map], ?_, ?_⟩
  · induction data with
    | nil => exact List.Forall₂.nil
    | cons item rest ih => exact List.Forall₂.cons ⟨rfl, rfl⟩ ih
  · intro name e
    exact ⟨rfl, rfl⟩

/-- Witness for `adapter_no_drop` at the empty item and the empty RSS entry. -/
theorem adapter_no_drop_witness :
    (DevToSource.parse_articles (fun _ => none) 0 [{}]).length = 1
    ∧ List.Forall₂
        (fun (b : Article) (item : DevToItem) =>
          b.title = item.title?.getD "" ∧ b.url = item.url?.getD "")
        (DevToSource.parse_articles (fun _ => none) 0 [{}]) [{}]
    ∧ ((RSSSource.entryArticle (fun _ => none) id 0 "Blog" {}).title = "Untitled"
      ∧ (RSSSource.entryArticle (fun _ => none) id 0 "Blog" {}).url = "") := by
  have h := adapter_no_drop (fun _ => none) 0 [{}] id
  exact ⟨h.1, h.2.1, h.2.2 "Blog" {}⟩

/-- `dataclass DigestConfig` from `config.py`. -/
structure DigestConfig where
  title : String := "Morning Byte"
  subtitle : String := "Your Daily Tech Digest"
  max_articles_per_section : Nat := 15
  include_comments_link : Bool := true
  include_scores : Bool := true
  topics : List String := ["programming", "ai", "startups", "tech"]
deriving Repr, DecidableEq

/-- `dataclass Section` from `models.py`. -/
structure Section where
  title : String
  articles : List Article := []
  description : String := ""
deriving Repr, DecidableEq

/-- `dataclass Digest` from `models.py`. -/
structure Digest where
  title : String
  date : Nat
  sections : List Section := []
  intro : String := ""
deriving Repr, DecidableEq

/-- The fixed `source_order` priority list of `create_digest_from_articles`. -/
def source_order : List String := ["Hacker News", "Lobsters", "Dev.to"]

/-- `create_digest_from_articles` (`epub/generator.py`): one Section per
non-empty group; priority labels first in `source_order` order, then the
remaining non-empty groups in mapping iteration order.  `fmtDate` models
`now.strftime("%A, %B %d")`. -/
def create_digest_from_articles (fmtDate : Nat → String)
    (articles_by_source : Groups) (config : DigestConfig) (now : Nat) : Digest :=
  let prioritySections : List Section :=
    source_order.foldl (fun acc name =>
      match alookup name articles_by_source with
      | some arts =>
        if arts.isEmpty then acc else acc ++ [{ title := name, articles := arts }]
      | none => acc) []
  let sections : List Section :=
    articles_by_source.foldl (fun acc p =>
      if p.1 ∉ source_order ∧ p.2 ≠ [] then
        acc ++ [{ title := p.1, articles := p.2 }]
      else acc) prioritySections
  { title := config.title
    date := now
    sections := sections
    intro := "Your curated tech digest for " ++ fmtDate now ++ "." }

lemma priority_fold_eq (m : Groups) (l : List String) :
    ∀ acc : List Section,
      l.foldl (fun acc name =>
        match alookup name m with
        | some arts =>
          if arts.isEmpty then acc else acc ++ [{ title := name, articles := arts }]
        | none => acc) acc =
      acc ++ l.filterMap (fun name =>
        match alookup name m with
        | some arts =>
          if arts.isEmpty then none else some { title := name, articles := arts }
        | none => none) := by
  induction l with
  | nil => intro acc; simp
  | cons n rest ih =>
    intro acc
    rw [List.foldl_cons, ih, List.filterMap_cons]
    cases h : alookup n m with
    | some arts =>
      by_cases he : arts.isEmpty
      · simp [h, he]
      · simp [h, he, List.append_assoc]
    | none => simp [h]

lemma rest_fold_eq (m : Groups) :
    ∀ acc : List Section,
      m.foldl (fun acc p =>
        if p.1 ∉ source_order ∧ p.2 ≠ [] then
          acc ++ [{ title := p.1, articles := p.2 }]
        else acc) acc =
      acc ++ (m.filter (fun p => p.1 ∉ source_order ∧ p.2 ≠ [])).map
        (fun p => { title := p.1, articles := p.2 : Section }) := by
  induction m with
  | nil => intro acc; simp
  | cons p rest ih =>
    intro acc
    rw [List.foldl_cons, ih, List.filter_cons]
    by_cases hc : p.1 ∉ source_order ∧ p.2 ≠ []
    · simp [hc, List.append_assoc]
    · simp [hc]

/-- C8: the digest's sections are the non-empty priority groups (in the fixed
`source_order`, so "Hacker News" before "Lobsters" before "Dev.to") followed by
the remaining non-empty groups in the mapping's iteration order; a group with an
empty article list yields no section, and every section carries its group's
label and article list. -/
theorem digest_sections_priority (fmtDate : Nat → String) (m : Groups)
    (config : DigestConfig) (now : Nat) :
    (create_digest_from_articles fmtDate m config now).sections =
      source_order.filterMap (fun name =>
        match alookup name m with
        | some arts =>
          if arts.isEmpty then none else some { title := name, articles := arts }
        | none => none)
      ++ (m.filter (fun p => p.1 ∉ source_order ∧ p.2 ≠ [])).map
          (fun p => { title := p.1, articles := p.2 })
    ∧ (∀ s ∈ (create_digest_from_articles fmtDate m config now).sections,
        s.articles ≠ []) := by
  have hsec : (create_digest_from_articles fmtDate m config now).sections =
      source_order.filterMap (fun name =>
        match alookup name m with
        | some arts =>
          if arts.isEmpty then none else some { title := name, articles := arts }
        | none => none)
      ++ (m.filter (fun p => p.1 ∉ source_order ∧ p.2 ≠ [])).map
          (fun p => { title := p.1, articles := p.2 }) := by
    show (m.foldl _ (source_order.foldl _ [])) = _
    rw [rest_fold_eq, priority_fold_eq, List.nil_append]
  refine ⟨hsec, ?_⟩
  intro s hs
  rw [hsec] at hs
  rcases List.mem_append.mp hs with hs | hs
  · obtain ⟨name, _, hname⟩ := List.mem_filterMap.mp hs
    rcases h : alookup name m with _ | arts
    · rw [h] at hname
      have hname' : (none : Option Section) = some s := hname
      exact absurd hname' (by simp)
    · rw [h] at hname
      have hname' : (if arts.isEmpty = true then none
          else some ({ title := name, articles := arts, description := "" } : Section)) =
          some s := hname
      by_cases he : arts.isEmpty
      · rw [if_pos he] at hname'
        exact absurd hname' (by simp)
      · rw [if_neg he] at hname'
        have hsa : s.articles = arts := by
          have h2 := Option.some.inj hname'
          rw [← h2]
        rw [hsa]
        intro hc
        rw [hc] at he
        exact he rfl
  · obtain ⟨p, hp, hps⟩ := List.mem_map.mp hs
    have hcond := List.of_mem_filter hp
    have : s.articles = p.2 := by rw [← hps]
    rw [this]
    exact (of_decide_eq_true hcond).2

/-- Sample mapping from the spec's C8 example. -/
def demoGroups : Groups :=
  [("Lobsters", [demoArticle "lob"]), ("Hacker News", [demoArticle "hn"]),
   ("r/foo", [demoArticle "foo"])]

/-- Witness for `digest_sections_priority`: on the example mapping
`{"Lobsters": ..., "Hacker News": ..., "r/foo": ...}` the section titles come
out as `["Hacker News", "Lobsters", "r/foo"]`, and the first section (taken
from the theorem's non-emptiness conjunct) is non-empty. -/
theorem digest_sections_priority_witness :
    ((create_digest_from_articles (fun _ => "Sunday, October 12") demoGroups {} 0).sections =
      source_order.filterMap (fun name =>
        match alookup name demoGroups with
        | some arts =>
          if arts.isEmpty then none else some { title := name, articles := arts }
        | none => none)
      ++ (demoGroups.filter (fun p => p.1 ∉ source_order ∧ p.2 ≠ [])).map
          (fun p => { title := p.1, articles := p.2 }))
    ∧ (create_digest_from_articles (fun _ => "Sunday, October 12")
        demoGroups {} 0).sections.map (fun s => s.title) =
      ["Hacker News", "Lobsters", "r/foo"]
    ∧ ({ title := "Hacker News", articles := [demoArticle "hn"] } : Section).articles ≠ [] := by
  have h := digest_sections_priority (fun _ => "Sunday, October 12") demoGroups {} 0
  refine ⟨h.1, by rw [h.1]; decide, ?_⟩
  exact h.2 { title := "Hacker News", articles := [demoArticle "hn"] }
    (by rw [h.1]; decide)

/-- `dataclass ContentResult` from `content.py`. -/
structure ContentResult where
  url : String
  content : String
  success : Bool
  error : String := ""
deriving Repr, DecidableEq

/-- `enrich_articles_with_content` (`content.py`): for each article look up its
URL in the results dict; `if result and result.success and result.content:` set
`article.content`; otherwise leave the article alone.  The list itself is
returned unchanged (same order, same length). -/
def enrich_articles_with_content (articles : List Article)
    (content_results : List (String × ContentResult)) : List Article :=
  articles.map (fun a =>
    match alookup a.url content_results with
    | some r =>
      if r.success = true ∧ r.content ≠ "" then { a with content := r.content } else a
    | none => a)

/-- C9: the enrichment merge is a frame-preserving, content-only update.  The
returned list has the same length and order; at every position all fields other
than `content` are unchanged; the article is wholly unchanged when its URL has
no result or a failed/empty result; and `content` is set to the result's
content exactly when the result is successful and non-empty.  The function is
total (it never fails the run). -/
theorem enrich_frame (articles : List Article)
    (content_results : List (String × ContentResult)) :
    (enrich_articles_with_content articles content_results).length = articles.length
    ∧ List.Forall₂ (fun (b a : Article) =>
        (b.title = a.title ∧ b.url = a.url ∧ b.source = a.source
          ∧ b.summary = a.summary ∧ b.author = a.author ∧ b.score = a.score
          ∧ b.comments_count = a.comments_count ∧ b.comments_url = a.comments_url
          ∧ b.published_at = a.published_at ∧ b.tags = a.tags)
        ∧ (alookup a.url content_results = none → b = a)
        ∧ (∀ r, alookup a.url content_results = some r →
            ¬(r.success = true ∧ r.content ≠ "") → b = a)
        ∧ (∀ r, alookup a.url content_results = some r →
            r.success = true → r.content ≠ "" → b = { a with content := r.content }))
      (enrich_articles_with_content articles content_results) articles := by
  constructor
  · rw [enrich_articles_with_content, List.length_map]
  · induction articles with
    | nil => exact List.Forall₂.nil
    | cons a rest ih =>
      refine List.Forall₂.cons ?_ ih
      refine ⟨?_, ?_, ?_, ?_⟩
      · cases h : alookup a.url content_results with
        | none => simp [h]
        | some r =>
          by_cases hc : r.success = true ∧ r.content ≠ ""
          · simp [h, hc]
          · simp [h, hc]
      · intro h
        simp [h]
      · intro r h hc
        simp [h, hc]
      · intro r h hs hcne
        simp [h, hs, hcne]

/-- Demo article list for the enrichment witness. -/
def enrichArts : List Article :=
  [{ title := "X", url := "https://e.com/x", source := "S" },
   { title := "Y", url := "https://e.com/y", source := "S" }]

/-- Demo content results: a successful non-empty result for the first URL, a
failed one for the second. -/
def enrichResults : List (String × ContentResult) :=
  [("https://e.com/x", { url := "https://e.com/x", content := "<p>body</p>", success := true }),
   ("https://e.com/y", { url := "https://e.com/y", content := "", success := false, error := "Timeout" })]

/-- Witness for `enrich_frame` on the demo data. -/
theorem enrich_frame_witness :
    (enrich_articles_with_content enrichArts enrichResults).length = enrichArts.length
    ∧ (enrich_articles_with_content enrichArts enrichResults).map (fun a => a.content) =
        ["<p>body</p>", ""]
    ∧ (enrich_articles_with_content enrichArts enrichResults).map (fun a => a.title) =
        ["X", "Y"] := by
  exact ⟨(enrich_frame enrichArts enrichResults).1, by decide, by decide⟩

end MorningByte
